import Mathlib

/-!
Shallow embedding of `stisblazefix.py` (HST STIS echelle blaze-function
correction).  Finite floating-point data values are modelled as exact
rationals; the distinction between finite numpy scalars and the non-finite
values (`inf`/`nan`) that numpy division by zero produces is tracked by the
type `PyVal`.  The exact square root `np.sqrt` leaves ℚ, so the development
is parameterized by an abstract `sqrtFn : ℚ → ℚ` wherever the source calls
`np.sqrt`; no theorem below depends on properties of `sqrtFn`.
-/

namespace Stisblazefix

/-- A numpy floating-point scalar: either a finite value (modelled exactly as
a rational) or a non-finite value (`inf`, `-inf` or `nan`; not distinguished
here).  Numpy float division by zero does not raise: it produces a non-finite
value together with a `RuntimeWarning`. -/
inductive PyVal where
  | fin (x : ℚ)
  | nonfin
deriving DecidableEq

/-- Numpy scalar addition: finite + finite is finite; any operation with a
non-finite operand stays non-finite. -/
def pyAdd : PyVal → PyVal → PyVal
  | PyVal.fin x, PyVal.fin y => PyVal.fin (x + y)
  | _, _ => PyVal.nonfin

/-- Numpy scalar subtraction. -/
def pySub : PyVal → PyVal → PyVal
  | PyVal.fin x, PyVal.fin y => PyVal.fin (x - y)
  | _, _ => PyVal.nonfin

/-- Numpy scalar multiplication.  A non-finite operand yields a non-finite
result (`x * inf` is `±inf` or, for `x = 0`, `nan`). -/
def pyMul : PyVal → PyVal → PyVal
  | PyVal.fin x, PyVal.fin y => PyVal.fin (x * y)
  | _, _ => PyVal.nonfin

/-- Numpy scalar division: division of a finite value by zero yields a
non-finite value (`inf` or `nan`) instead of raising `ZeroDivisionError`. -/
def pyDiv : PyVal → PyVal → PyVal
  | PyVal.fin x, PyVal.fin y => if y = 0 then PyVal.nonfin else PyVal.fin (x / y)
  | _, _ => PyVal.nonfin

/-- Numpy absolute value. -/
def pyAbs : PyVal → PyVal
  | PyVal.fin x => PyVal.fin |x|
  | PyVal.nonfin => PyVal.nonfin

/-- Numpy square root, with the exact root on finite nonnegative inputs
abstracted by `sqrtFn` (every use site below feeds it a sum of squares over
squares, which is nonnegative whenever it is finite). -/
def pySqrt (sqrtFn : ℚ → ℚ) : PyVal → PyVal
  | PyVal.fin x => PyVal.fin (sqrtFn x)
  | PyVal.nonfin => PyVal.nonfin

/-- Insertion index of `q` in `xs` from the left, as computed by
`np.searchsorted(xs, q)` for sorted `xs`: the number of entries `< q`. -/
def searchsortedLeft (xs : List ℚ) (q : ℚ) : ℕ :=
  xs.countP (fun x => decide (x < q))

/-- Piecewise-linear interpolation with linear extrapolation, the behavior of
`scipy.interpolate.interp1d(xs, ys, fill_value='extrapolate')` (source lines
77, 110-111): the segment index is the left insertion index clipped to
`[1, len(xs) - 1]`, and the value is the line through the two samples
bounding that segment, evaluated at `q` — also outside `[xs[0], xs[-1]]`. -/
def interp1d (xs ys : List ℚ) (q : ℚ) : ℚ :=
  let j := min (max (searchsortedLeft xs q) 1) (xs.length - 1)
  let x0 := xs.getD (j - 1) 0
  let x1 := xs.getD j 0
  let y0 := ys.getD (j - 1) 0
  let y1 := ys.getD j 0
  y0 + (y1 - y0) / (x1 - x0) * (q - x0)

/-- The data attribute of one x1d table extension: parallel 2-D arrays, one
row per spectral order (columns `wavelength`, `flux`, `error`, `net`,
`net_error`). -/
structure FileData where
  wavelength : List (List ℚ)
  flux : List (List ℚ)
  error : List (List ℚ)
  net : List (List ℚ)
  net_error : List (List ℚ)
deriving DecidableEq

/-- The default `FileData` used with `List.getD` / `List.getLastD`. -/
def emptyFD : FileData := ⟨[], [], [], [], []⟩

instance : Inhabited FileData := ⟨emptyFD⟩

/-- A 2-D array has `r` rows, each of length `c` (numpy shape `(r, c)`). -/
def Rect (m : List (List ℚ)) (r c : ℕ) : Prop :=
  m.length = r ∧ ∀ row ∈ m, row.length = c

instance (m : List (List ℚ)) (r c : ℕ) : Decidable (Rect m r c) := by
  unfold Rect; infer_instance

/-- Elementwise `np.divide` of two same-shaped 2-D arrays. -/
def npdivide (a b : List (List ℚ)) : List (List ℚ) :=
  List.zipWith (fun ra rb => List.zipWith (fun x y => x / y) ra rb) a b

/-- The pixel-index grid `np.arange(c)` as rationals (source line 75). -/
def pixnosL (c : ℕ) : List ℚ :=
  (List.range c).map (fun i : ℕ => (i : ℚ))

/-- The original sensitivity curve backed out on source line 71:
`origblaze = np.divide(filedata['net'], filedata['flux'])`. -/
def origblazeOf (fd : FileData) : List (List ℚ) :=
  npdivide fd.net fd.flux

/-- The per-order pixel count `np.shape(origblaze)[1]` (source line 72),
which for a rectangular array is the length of its first row. -/
def ncolsOf (fd : FileData) : ℕ :=
  ((origblazeOf fd).headD []).length

/-- The shifted blaze array filled by the loop of source lines 74-79:
`newblaze[order] = f(pixnos - pixshift[order])` with
`f = interp1d(pixnos, origblaze[order], fill_value='extrapolate')`. -/
def newblazeOf (fd : FileData) (pixshift : List ℚ) : List (List ℚ) :=
  (List.range (origblazeOf fd).length).map (fun o =>
    (pixnosL (ncolsOf fd)).map (fun p =>
      interp1d (pixnosL (ncolsOf fd)) ((origblazeOf fd).getD o []) (p - pixshift.getD o 0)))

/-- Embedding of `fluxcorrect` (source lines 61-82): back out the original
sensitivity `origblaze = net / flux`, shift each order's blaze curve by
evaluating its pixel-index interpolant at `pixnos - pixshift[order]`, and
recompute `newflux = net / newblaze`, `newerr = net_error / newblaze`. -/
def fluxcorrect (fd : FileData) (pixshift : List ℚ) : List (List ℚ) × List (List ℚ) :=
  (npdivide fd.net (newblazeOf fd pixshift), npdivide fd.net_error (newblazeOf fd pixshift))

/-- The overlap index set of source line 112:
`np.where(wavelength[order] <= wavelength[order + 1][-1])`, i.e. the indices
of order `i` pixels whose wavelength is at most the last wavelength of order
`i + 1`, in increasing order. -/
def overlapIdx (w0 w1 : List ℚ) : List ℕ :=
  (List.range w0.length).filter (fun i => decide (w0.getD i 0 ≤ w1.getLastD 0))

/-- Fancy indexing `arr[overlap]`: gather the entries of `arr` at the given
index list. -/
def gather (arr : List ℚ) (idx : List ℕ) : List ℚ :=
  idx.map (fun i => arr.getD i 0)

/-- Resampling of order `i + 1` data onto order `i`'s wavelength grid at the
overlap pixels: `f(wavelength[order][overlap])` with `f = interp1d(w1, ys)`
(source lines 110-117). -/
def resample (w1 ys w0 : List ℚ) (idx : List ℕ) : List ℚ :=
  idx.map (fun i => interp1d w1 ys (w0.getD i 0))

/-- The summation loop of source lines 121-127 for one accumulator:
`s += vals[i]` for `i` running from `lo` while `i < hi`. -/
def loopSum (vals : List ℚ) (lo hi : ℕ) : ℚ :=
  ((List.range hi).drop lo).foldl (fun s i => s + vals.getD i 0) 0

/-- The summation loop of source lines 121-127 for a squared accumulator:
`s += vals[i] ** 2` for `i` running from `lo` while `i < hi`. -/
def loopSumSq (vals : List ℚ) (lo hi : ℕ) : ℚ :=
  ((List.range hi).drop lo).foldl (fun s i => s + (vals.getD i 0) ^ 2) 0

/-- `fluxsum0` of source line 123: trimmed sum of order `i`'s native flux
over the overlap pixels. -/
def pairFluxsum0 (w0 f0 w1 : List ℚ) (ntrim : ℕ) : ℚ :=
  loopSum (gather f0 (overlapIdx w0 w1)) ntrim ((overlapIdx w0 w1).length - ntrim)

/-- `fluxsum1` of source line 124: trimmed sum of order `i + 1`'s flux
resampled onto order `i`'s overlap wavelengths. -/
def pairFluxsum1 (w0 w1 f1 : List ℚ) (ntrim : ℕ) : ℚ :=
  loopSum (resample w1 f1 w0 (overlapIdx w0 w1)) ntrim ((overlapIdx w0 w1).length - ntrim)

/-- `errsum0` of source line 125: trimmed sum of squared native errors. -/
def pairErrsum0 (w0 e0 w1 : List ℚ) (ntrim : ℕ) : ℚ :=
  loopSumSq (gather e0 (overlapIdx w0 w1)) ntrim ((overlapIdx w0 w1).length - ntrim)

/-- `errsum1` of source line 126: trimmed sum of squared resampled errors. -/
def pairErrsum1 (w0 w1 e1 : List ℚ) (ntrim : ℕ) : ℚ :=
  loopSumSq (resample w1 e1 w0 (overlapIdx w0 w1)) ntrim ((overlapIdx w0 w1).length - ntrim)

/-- One adjacent-order pair of `residcalc` (source lines 108-135).  The
`try/except ZeroDivisionError` of lines 128-133 fires exactly when the trim
loop never executed: only then are `fluxsum0`/`fluxsum1` still the Python
ints `0` of line 118, so `fluxsum0/fluxsum1` raises and the handler sets
`resid = 0`, `residerr = 1`.  When the loop ran at least once the sums are
numpy scalars and division by zero silently yields non-finite values. -/
def residPair (sqrtFn : ℚ → ℚ) (w0 f0 e0 w1 f1 e1 : List ℚ) (ntrim : ℕ) :
    PyVal × PyVal :=
  let n := (overlapIdx w0 w1).length
  if n ≤ 2 * ntrim then
    (PyVal.fin 0, PyVal.fin 1)
  else
    let s0 := pairFluxsum0 w0 f0 w1 ntrim
    let s1 := pairFluxsum1 w0 w1 f1 ntrim
    let e0s := pairErrsum0 w0 e0 w1 ntrim
    let e1s := pairErrsum1 w0 w1 e1 ntrim
    let resid := pySub (PyVal.fin 1) (pyDiv (PyVal.fin s0) (PyVal.fin s1))
    (resid,
      pyMul (pyAbs (pySub (PyVal.fin 1) resid))
        (pySqrt sqrtFn (pyAdd (pyDiv (PyVal.fin e0s) (PyVal.fin (s0 ^ 2)))
          (pyDiv (PyVal.fin e1s) (PyVal.fin (s1 ^ 2))))))

/-- Embedding of `residcalc` (source lines 84-136) with the `flux`/`err`
keyword arguments passed explicitly: one `(resid, residerr)` pair per
adjacent order pair, for orders `0 .. flux.length - 2`. -/
def residcalc (sqrtFn : ℚ → ℚ) (fd : FileData) (flux err : List (List ℚ))
    (ntrim : ℕ) : List PyVal × List PyVal :=
  let pairs := (List.range (flux.length - 1)).map (fun o =>
    residPair sqrtFn (fd.wavelength.getD o []) (flux.getD o []) (err.getD o [])
      (fd.wavelength.getD (o + 1) []) (flux.getD (o + 1) []) (err.getD (o + 1) []) ntrim)
  (pairs.map Prod.fst, pairs.map Prod.snd)

/-- `residcalc` with the keyword defaults `flux=None`, `err=None`
(source lines 99-102): the arrays are taken from `filedata`. -/
def residcalcD (sqrtFn : ℚ → ℚ) (fd : FileData) (ntrim : ℕ) :
    List PyVal × List PyVal :=
  residcalc sqrtFn fd fd.flux fd.error ntrim

/-- Outcome of the external nonlinear least-squares run for the two varying
parameters: values and standard errors. -/
structure LmResult where
  aValue : ℚ
  aStderr : ℚ
  bValue : ℚ
  bStderr : ℚ
deriving DecidableEq

/-- Modelled from the spec: the external `lmfit.minimize` call of source line
246 is not repository code; per section 4.5 of the spec, parameters marked
non-varying are held fixed at their initial values while varying parameters
take the solver outcome.  The solver outcome itself is an arbitrary
`LmResult` argument. -/
def lmfitMinimize (solver : LmResult) (aInit bInit : ℚ) (aVary bVary : Bool) :
    LmResult :=
  ⟨if aVary then solver.aValue else aInit, solver.aStderr,
   if bVary then solver.bValue else bInit, solver.bStderr⟩

/-- The number of rows of an x1d table extension, `np.shape(filedata)[0]`:
one row per spectral order. -/
def numOrders (fd : FileData) : ℕ := fd.wavelength.length

/-- Embedding of `findshift` (source lines 227-252).  Both parameters start
at the guess; when `iterate` is false both are marked non-varying (line 244
reads `if !iterate:`, a Python syntax slip for the documented
`if not iterate:`, which is what is modelled here).  The result is
`(pixshift, pixerr, (a, b))` with `a = (value, stderr)`, `b = (value,
stderr)`, `pixshift[k] = a + b*k` and
`pixerr[k] = sqrt(stderr(a)^2 + (k*stderr(b))^2)` (lines 248-252). -/
def findshift (solver : LmResult) (sqrtFn : ℚ → ℚ) (fd : FileData)
    (guess : ℚ × ℚ) (iterate : Bool) :
    List ℚ × List ℚ × ((ℚ × ℚ) × (ℚ × ℚ)) :=
  let vary := iterate
  let res := lmfitMinimize solver guess.1 guess.2 vary vary
  let a := (res.aValue, res.aStderr)
  let b := (res.bValue, res.bStderr)
  let ps := (List.range (numOrders fd)).map (fun k : ℕ => a.1 + b.1 * (k : ℚ))
  let pe := (List.range (numOrders fd)).map
    (fun k : ℕ => sqrtFn (a.2 ^ 2 + ((k : ℚ) * b.2) ^ 2))
  (ps, pe, (a, b))

/-- Overwrite the `flux` and `error` columns of one extension record, as in
`filedata['flux'] = newflux; filedata['error'] = newerr` (lines 290-291). -/
def setFluxErr (fd : FileData) (nf ne : List (List ℚ)) : FileData :=
  ⟨fd.wavelength, nf, ne, fd.net, fd.net_error⟩

/-- The per-file part of `fluxfix` (source lines 277-293) acting on the list
of table extensions `file[1], ..., file[extno - 1]`.  The extension loop
rebinds `filedata`, `newflux` and `newerr` on every iteration without writing
anything back (lines 277-287); after the loop, the variables still hold the
last extension's record and its corrected arrays, and only those are written
(lines 290-291) before the file is saved.  The `foldl` models the repeated
rebinding; `none` models the unbound state before the first iteration. -/
def fluxfixFile (solver : LmResult) (sqrtFn : ℚ → ℚ) (guess : ℚ × ℚ)
    (file : List FileData) : List FileData :=
  match file.foldl
      (fun _ fd => some (fluxcorrect fd (findshift solver sqrtFn fd guess true).1))
      (none : Option (List (List ℚ) × List (List ℚ))) with
  | none => file
  | some (nf, ne) =>
      file.dropLast ++ (file.getLast?).elim [] (fun fd => [setFluxErr fd nf ne])

/-- Failing input for the degenerate-overlap fallback: two orders of 12
pixels on identical wavelength grids `0, 1, ..., 11`, with all flux and
error values zero. -/
def fdAllZero : FileData :=
  ⟨[pixnosL 12, pixnosL 12],
   [List.replicate 12 0, List.replicate 12 0],
   [List.replicate 12 0, List.replicate 12 0],
   [List.replicate 12 0, List.replicate 12 0],
   [List.replicate 12 0, List.replicate 12 0]⟩

/-- One order, two pixels; `error * net ≠ net_error * flux`, so the exposure
violates the flux-calibration consistency relation. -/
def fdInconsistent : FileData :=
  ⟨[[0, 1]], [[2, 2]], [[5, 5]], [[1, 1]], [[3, 3]]⟩

/-- One order, two pixels; nonzero `net` and `flux` and
`error * net = net_error * flux` at every pixel. -/
def fdConsistent : FileData :=
  ⟨[[0, 1]], [[3, 4]], [[15, 12]], [[1, 2]], [[5, 6]]⟩

/-- Two orders of two pixels with nonzero flux in the (fully shared) overlap
region. -/
def fdSmall : FileData :=
  ⟨[[0, 1], [0, 1]], [[1, 2], [3, 5]], [[1, 1], [0, 0]],
   [[0, 0], [0, 0]], [[0, 0], [0, 0]]⟩

/-- Two orders of two pixels with nonzero flux everywhere; the overlap index
set has only 2 entries, fewer than `2 * ntrim` for the default `ntrim = 5`. -/
def fdTiny : FileData :=
  ⟨[[0, 1], [0, 1]], [[1, 2], [3, 4]], [[1, 2], [3, 4]],
   [[1, 1], [1, 1]], [[1, 1], [1, 1]]⟩

/-- Three orders with one pixel each; only `numOrders` matters. -/
def fdThree : FileData :=
  ⟨[[0], [0], [0]], [[1], [1], [1]], [[1], [1], [1]],
   [[1], [1], [1]], [[1], [1], [1]]⟩

theorem getD_map_range {α : Type} (m o : ℕ) (g : ℕ → α) (d : α) (h : o < m) :
    ((List.range m).map g).getD o d = g o := by
  have hlen : o < ((List.range m).map g).length := by simpa using h
  rw [List.getD_eq_getElem _ _ hlen]
  simp

theorem getD_replicate_zero (r o : ℕ) : (List.replicate r (0 : ℚ)).getD o 0 = 0 := by
  rw [List.getD_eq_getElem?_getD]
  rcases lt_or_le o r with h | h
  · simp [List.getElem?_replicate, h]
  · rw [List.getElem?_eq_none (show (List.replicate r (0 : ℚ)).length ≤ o by simpa using h)]
    rfl

theorem map_getD_range_drop (vals : List ℚ) (lo hi : ℕ) (hhi : hi ≤ vals.length) :
    ((List.range hi).drop lo).map (fun i => vals.getD i 0)
      = (vals.drop lo).take (hi - lo) := by
  apply List.ext_getElem
  · simp
    omega
  · intro t h1 h2
    simp only [List.getElem_map, List.getElem_drop, List.getElem_take, List.getElem_range]
    have hlt : lo + t < vals.length := by
      simp at h1
      omega
    rw [List.getD_eq_getElem _ _ hlt]

theorem map_getD_sq_range_drop (vals : List ℚ) (lo hi : ℕ) (hhi : hi ≤ vals.length) :
    ((List.range hi).drop lo).map (fun i => vals.getD i 0 ^ 2)
      = (((vals.drop lo).take (hi - lo)).map (fun x => x ^ 2)) := by
  apply List.ext_getElem
  · simp
    omega
  · intro t h1 h2
    simp only [List.getElem_map, List.getElem_drop, List.getElem_take, List.getElem_range]
    have hlt : lo + t < vals.length := by
      simp at h1
      omega
    rw [List.getD_eq_getElem _ _ hlt]

theorem foldl_add_f (f : ℕ → ℚ) (l : List ℕ) (a : ℚ) :
    l.foldl (fun s i => s + f i) a = a + (l.map f).sum := by
  induction l generalizing a with
  | nil => simp
  | cons x t ih => simp [ih, add_assoc]

theorem loopSum_eq_trimmed_sum (vals : List ℚ) (lo hi : ℕ) (hhi : hi ≤ vals.length) :
    loopSum vals lo hi = ((vals.drop lo).take (hi - lo)).sum := by
  unfold loopSum
  rw [foldl_add_f (fun i => vals.getD i 0), map_getD_range_drop vals lo hi hhi, zero_add]

theorem loopSumSq_eq_trimmed_sum (vals : List ℚ) (lo hi : ℕ) (hhi : hi ≤ vals.length) :
    loopSumSq vals lo hi = (((vals.drop lo).take (hi - lo)).map (fun x => x ^ 2)).sum := by
  unfold loopSumSq
  rw [foldl_add_f (fun i => vals.getD i 0 ^ 2), map_getD_sq_range_drop vals lo hi hhi, zero_add]

theorem countP_range_lt (k c : ℕ) :
    (List.range c).countP (fun i => decide (i < k)) = min k c := by
  induction c with
  | zero => simp
  | succ c ih =>
    rw [List.range_succ, List.countP_append, ih, List.countP_singleton]
    by_cases h : c < k
    · rw [if_pos (by simpa using h)]
      omega
    · rw [if_neg (by simpa using h)]
      omega

theorem pixnosL_length (c : ℕ) : (pixnosL c).length = c := by
  simp [pixnosL]

theorem pixnosL_getD (c i : ℕ) (h : i < c) : (pixnosL c).getD i 0 = (i : ℚ) := by
  unfold pixnosL
  exact getD_map_range c i _ 0 h

theorem searchsortedLeft_pixnosL (c k : ℕ) :
    searchsortedLeft (pixnosL c) ((k : ℚ)) = min k c := by
  unfold searchsortedLeft pixnosL
  rw [List.countP_map]
  have hfun : ((fun x : ℚ => decide (x < (k : ℚ))) ∘ fun i : ℕ => (i : ℚ))
      = fun i : ℕ => decide (i < k) := by
    funext i
    simp [Function.comp]
  rw [hfun, countP_range_lt]

theorem interp1d_pixnosL_at (ys : List ℚ) (c k : ℕ) (h2 : 2 ≤ c) (hk : k < c) :
    interp1d (pixnosL c) ys ((k : ℚ)) = ys.getD k 0 := by
  simp only [interp1d, searchsortedLeft_pixnosL, pixnosL_length]
  have hmin : min k c = k := Nat.min_eq_left (le_of_lt hk)
  rw [hmin]
  by_cases hk0 : k = 0
  · subst hk0
    have hj : min (max 0 1) (c - 1) = 1 := by omega
    rw [hj, pixnosL_getD c 0 (by omega)]
    norm_num
  · have hk1 : 1 ≤ k := Nat.one_le_iff_ne_zero.mpr hk0
    have hj : min (max k 1) (c - 1) = k := by omega
    rw [hj, pixnosL_getD c (k - 1) (by omega), pixnosL_getD c k (by omega)]
    have hcast : ((k : ℚ)) - ((k - 1 : ℕ) : ℚ) = 1 := by
      rw [Nat.cast_sub hk1]
      ring
    rw [hcast, div_one, mul_one]
    ring

theorem searchsortedLeft_eq_zero (xs : List ℚ) (q : ℚ)
    (h : ∀ x ∈ xs, ¬x < q) : searchsortedLeft xs q = 0 := by
  unfold searchsortedLeft
  rw [List.countP_eq_zero]
  intro a ha
  simpa using h a ha

theorem searchsortedLeft_eq_length (xs : List ℚ) (q : ℚ)
    (h : ∀ x ∈ xs, x < q) : searchsortedLeft xs q = xs.length := by
  unfold searchsortedLeft
  rw [List.countP_eq_length]
  intro a ha
  simpa using h a ha

/-- C6: for a strictly monotonic sample grid `xs` with at least 2 points and
values `ys`, the interpolation used by `fluxcorrect` and `residcalc` returns,
at any query `q` outside `[xs[0], xs[-1]]`, the linear continuation of the
nearest boundary segment (the line through the first two samples below the
grid, the line through the last two samples above it) — not a clipped
boundary value and not a failure. -/
theorem interp1d_extrapolates_linearly (xs ys : List ℚ) (q : ℚ)
    (hlen : 2 ≤ xs.length)
    (hmono : ∀ j, j < xs.length → ∀ i, i < j → xs.getD i 0 < xs.getD j 0) :
    (q < xs.getD 0 0 →
      interp1d xs ys q
        = ys.getD 0 0 + (ys.getD 1 0 - ys.getD 0 0)
            / (xs.getD 1 0 - xs.getD 0 0) * (q - xs.getD 0 0))
    ∧ (xs.getD (xs.length - 1) 0 < q →
      interp1d xs ys q
        = ys.getD (xs.length - 2) 0
            + (ys.getD (xs.length - 1) 0 - ys.getD (xs.length - 2) 0)
              / (xs.getD (xs.length - 1) 0 - xs.getD (xs.length - 2) 0)
              * (q - xs.getD (xs.length - 2) 0)) := by
  constructor
  · intro hq
    have hss : searchsortedLeft xs q = 0 := by
      apply searchsortedLeft_eq_zero
      intro x hx
      rw [List.mem_iff_getElem] at hx
      obtain ⟨i, hi, rfl⟩ := hx
      rw [← List.getD_eq_getElem xs 0 hi]
      rcases Nat.eq_zero_or_pos i with h0 | h0
      · subst h0
        exact not_lt.mpr (le_of_lt hq)
      · exact not_lt.mpr (le_of_lt (lt_trans hq (hmono i hi 0 h0)))
    simp only [interp1d, hss]
    have hj : min (max 0 1) (xs.length - 1) = 1 := by omega
    rw [hj]
  · intro hq
    have hss : searchsortedLeft xs q = xs.length := by
      apply searchsortedLeft_eq_length
      intro x hx
      rw [List.mem_iff_getElem] at hx
      obtain ⟨i, hi, rfl⟩ := hx
      rw [← List.getD_eq_getElem xs 0 hi]
      rcases eq_or_lt_of_le (Nat.le_sub_one_of_lt hi) with hlast | hlt
      · rw [hlast]
        exact hq
      · exact lt_trans (hmono (xs.length - 1) (by omega) i hlt) hq
    simp only [interp1d, hss]
    have hj : min (max xs.length 1) (xs.length - 1) = xs.length - 1 := by omega
    rw [hj]
    have h21 : xs.length - 1 - 1 = xs.length - 2 := by omega
    rw [h21]

theorem npdivide_rect {a b : List (List ℚ)} {r c : ℕ}
    (ha : Rect a r c) (hb : Rect b r c) : Rect (npdivide a b) r c := by
  obtain ⟨hal, har⟩ := ha
  obtain ⟨hbl, hbr⟩ := hb
  constructor
  · simp [npdivide, hal, hbl]
  · intro row hrow
    rw [List.mem_iff_getElem] at hrow
    obtain ⟨i, hi, rfl⟩ := hrow
    simp only [npdivide] at hi ⊢
    have hia : i < a.length := by
      rw [List.length_zipWith] at hi
      omega
    have hib : i < b.length := by
      rw [List.length_zipWith] at hi
      omega
    rw [List.getElem_zipWith, List.length_zipWith,
      har _ (List.getElem_mem hia), hbr _ (List.getElem_mem hib)]
    simp

theorem ncolsOf_eq {fd : FileData} {r c : ℕ} (hr : 0 < r)
    (hnet : Rect fd.net r c) (hflux : Rect fd.flux r c) : ncolsOf fd = c := by
  have hob := npdivide_rect hnet hflux
  have hne : origblazeOf fd ≠ [] := by
    have : (origblazeOf fd).length = r := hob.1
    intro hnil
    rw [hnil] at this
    simp at this
    omega
  obtain ⟨x, t, hxt⟩ := List.exists_cons_of_ne_nil hne
  unfold ncolsOf
  rw [hxt]
  simp only [List.headD_cons]
  exact hob.2 x (show x ∈ origblazeOf fd by rw [hxt]; exact List.mem_cons_self x t)

theorem newblazeOf_rect {fd : FileData} (ps : List ℚ) {r c : ℕ}
    (hnet : Rect fd.net r c) (hflux : Rect fd.flux r c) :
    Rect (newblazeOf fd ps) r c := by
  have hob := npdivide_rect hnet hflux
  constructor
  · simp only [newblazeOf, List.length_map, List.length_range]
    exact hob.1
  · intro row hrow
    simp only [newblazeOf, List.mem_map, List.mem_range] at hrow
    obtain ⟨o, ho, rfl⟩ := hrow
    have holen : (origblazeOf fd).length = r := hob.1
    have hr : 0 < r := by omega
    rw [List.length_map, pixnosL_length]
    exact ncolsOf_eq hr hnet hflux

/-- C7: `fluxcorrect` is shape-preserving: for same-shaped `net`, `flux` and
`net_error` arrays, both returned arrays again have that shape.  (It is a
pure function of its inputs by construction: every array it touches is
freshly allocated by `np.divide`/`np.zeros`; the only in-place writes go to
the local `newblaze`.) -/
theorem fluxcorrect_shape_preserving (fd : FileData) (pixshift : List ℚ) (r c : ℕ)
    (hnet : Rect fd.net r c) (hflux : Rect fd.flux r c)
    (hnerr : Rect fd.net_error r c) :
    Rect ((fluxcorrect fd pixshift).1) r c ∧ Rect ((fluxcorrect fd pixshift).2) r c :=
  ⟨npdivide_rect hnet (newblazeOf_rect pixshift hnet hflux),
   npdivide_rect hnerr (newblazeOf_rect pixshift hnet hflux)⟩

theorem map_interp1d_pixnosL (row : List ℚ) (c : ℕ) (h2 : 2 ≤ c)
    (hlen : row.length = c) :
    (pixnosL c).map (fun p => interp1d (pixnosL c) row p) = row := by
  apply List.ext_getElem
  · rw [List.length_map, pixnosL_length, hlen]
  · intro i hi1 hi2
    have hic : i < c := by
      rw [List.length_map, pixnosL_length] at hi1
      exact hi1
    simp only [List.getElem_map]
    have hilen : i < (pixnosL c).length := by
      rw [pixnosL_length]
      exact hic
    rw [← List.getD_eq_getElem (pixnosL c) 0 hilen, pixnosL_getD c i hic,
      interp1d_pixnosL_at row c i h2 hic, List.getD_eq_getElem _ _ hi2]

theorem newblazeOf_zero {fd : FileData} {r c : ℕ} (h2 : 2 ≤ c)
    (hnet : Rect fd.net r c) (hflux : Rect fd.flux r c) :
    newblazeOf fd (List.replicate r 0) = origblazeOf fd := by
  have hob := npdivide_rect hnet hflux
  apply List.ext_getElem
  · simp [newblazeOf]
  · intro o h1 h2'
    have holen : (origblazeOf fd).length = r := hob.1
    have hr : 0 < r := by omega
    have hc : ncolsOf fd = c := ncolsOf_eq hr hnet hflux
    simp only [newblazeOf, List.getElem_map, List.getElem_range]
    simp only [getD_replicate_zero, sub_zero]
    rw [hc]
    have hrowlen : ((origblazeOf fd).getD o []).length = c := by
      rw [List.getD_eq_getElem _ _ h2']
      exact hob.2 _ (List.getElem_mem h2')
    rw [map_interp1d_pixnosL _ c h2 hrowlen, List.getD_eq_getElem _ _ h2']

theorem zipWith_div_blaze (u v w e : List ℚ) (c : ℕ)
    (hu : u.length = c) (hv : v.length = c) (hw : w.length = c) (he : e.length = c)
    (huz : ∀ x ∈ u, x ≠ 0)
    (hrel : ∀ i, i < c → e.getD i 0 * u.getD i 0 = w.getD i 0 * v.getD i 0) :
    List.zipWith (fun x y => x / y) w (List.zipWith (fun x y => x / y) u v) = e := by
  apply List.ext_getElem
  · rw [List.length_zipWith, List.length_zipWith, hu, hv, hw, he]
    simp
  · intro i hi1 hi2
    have hic : i < c := by
      rw [he] at hi2
      exact hi2
    have hiu : i < u.length := by omega
    have hiv : i < v.length := by omega
    have hiw : i < w.length := by omega
    simp only [List.getElem_zipWith]
    rw [div_div_eq_mul_div, div_eq_iff (huz _ (List.getElem_mem hiu))]
    have hri := hrel i hic
    rw [List.getD_eq_getElem _ _ hiu, List.getD_eq_getElem _ _ hiv,
      List.getD_eq_getElem _ _ hiw, List.getD_eq_getElem e 0 hi2] at hri
    exact hri.symm

/-- C2 (amended): applying `fluxcorrect` with an all-zero pixshift vector
reproduces the original `flux` array exactly, provided every `net` and
`flux` value is nonzero (so that no division by zero enters the blaze
arithmetic), and reproduces the original `error` array provided additionally
the exposure satisfies the flux-calibration consistency relation
`error * net = net_error * flux` at every pixel.  Without that relation the
returned error array is `net_error * flux / net`, not `error` (see the
counterexample). -/
theorem fluxcorrect_zero_shift_roundtrip (fd : FileData) (r c : ℕ) (h2 : 2 ≤ c)
    (hnet : Rect fd.net r c) (hflux : Rect fd.flux r c)
    (hnerr : Rect fd.net_error r c) (herr : Rect fd.error r c)
    (hnz : ∀ row ∈ fd.net, ∀ x ∈ row, x ≠ 0)
    (_hfz : ∀ row ∈ fd.flux, ∀ x ∈ row, x ≠ 0)
    (hcal : ∀ o, o < r → ∀ i, i < c →
      (fd.error.getD o []).getD i 0 * (fd.net.getD o []).getD i 0
        = (fd.net_error.getD o []).getD i 0 * (fd.flux.getD o []).getD i 0) :
    (fluxcorrect fd (List.replicate r 0)).1 = fd.flux
      ∧ (fluxcorrect fd (List.replicate r 0)).2 = fd.error := by
  have hnb : newblazeOf fd (List.replicate r 0) = origblazeOf fd :=
    newblazeOf_zero h2 hnet hflux
  constructor
  · show npdivide fd.net (newblazeOf fd (List.replicate r 0)) = fd.flux
    rw [hnb]
    simp only [npdivide, origblazeOf]
    apply List.ext_getElem
    · rw [List.length_zipWith, List.length_zipWith, hnet.1, hflux.1]
      simp
    · intro o ho1 ho2
      have hor : o < r := by
        rw [hflux.1] at ho2
        exact ho2
      have hon : o < fd.net.length := by
        rw [hnet.1]
        exact hor
      have hof : o < fd.flux.length := by
        rw [hflux.1]
        exact hor
      simp only [List.getElem_zipWith]
      apply zipWith_div_blaze fd.net[o] fd.flux[o] fd.net[o] fd.flux[o] c
        (hnet.2 _ (List.getElem_mem hon)) (hflux.2 _ (List.getElem_mem hof))
        (hnet.2 _ (List.getElem_mem hon)) (hflux.2 _ (List.getElem_mem hof))
        (hnz _ (List.getElem_mem hon))
      intro i hic
      ring
  · show npdivide fd.net_error (newblazeOf fd (List.replicate r 0)) = fd.error
    rw [hnb]
    simp only [npdivide, origblazeOf]
    apply List.ext_getElem
    · rw [List.length_zipWith, List.length_zipWith, hnet.1, hflux.1, hnerr.1, herr.1]
      simp
    · intro o ho1 ho2
      have hor : o < r := by
        rw [herr.1] at ho2
        exact ho2
      have hon : o < fd.net.length := by
        rw [hnet.1]
        exact hor
      have hof : o < fd.flux.length := by
        rw [hflux.1]
        exact hor
      have hone : o < fd.net_error.length := by
        rw [hnerr.1]
        exact hor
      simp only [List.getElem_zipWith]
      apply zipWith_div_blaze fd.net[o] fd.flux[o] fd.net_error[o] fd.error[o] c
        (hnet.2 _ (List.getElem_mem hon)) (hflux.2 _ (List.getElem_mem hof))
        (hnerr.2 _ (List.getElem_mem hone)) (herr.2 _ (List.getElem_mem ho2))
        (hnz _ (List.getElem_mem hon))
      intro i hic
      have h := hcal o hor i hic
      rw [List.getD_eq_getElem _ _ hon, List.getD_eq_getElem _ _ hof,
        List.getD_eq_getElem _ _ hone, List.getD_eq_getElem _ _ ho2] at h
      exact h

theorem pyDiv_fin_fin (x y : ℚ) (hy : y ≠ 0) :
    pyDiv (PyVal.fin x) (PyVal.fin y) = PyVal.fin (x / y) := by
  simp [pyDiv, hy]

theorem pySub_fin_fin (x y : ℚ) :
    pySub (PyVal.fin x) (PyVal.fin y) = PyVal.fin (x - y) := rfl

theorem pyAdd_fin_fin (x y : ℚ) :
    pyAdd (PyVal.fin x) (PyVal.fin y) = PyVal.fin (x + y) := rfl

theorem pyMul_fin_fin (x y : ℚ) :
    pyMul (PyVal.fin x) (PyVal.fin y) = PyVal.fin (x * y) := rfl

theorem pyAbs_fin (x : ℚ) : pyAbs (PyVal.fin x) = PyVal.fin |x| := rfl

theorem pySqrt_fin (sqrtFn : ℚ → ℚ) (x : ℚ) :
    pySqrt sqrtFn (PyVal.fin x) = PyVal.fin (sqrtFn x) := rfl

theorem residcalc_fst_getD (sqrtFn : ℚ → ℚ) (fd : FileData)
    (flux err : List (List ℚ)) (ntrim o : ℕ) (ho : o < flux.length - 1) :
    (residcalc sqrtFn fd flux err ntrim).1.getD o PyVal.nonfin
      = (residPair sqrtFn (fd.wavelength.getD o []) (flux.getD o []) (err.getD o [])
          (fd.wavelength.getD (o + 1) []) (flux.getD (o + 1) []) (err.getD (o + 1) [])
          ntrim).1 := by
  simp only [residcalc, List.map_map]
  exact getD_map_range _ o _ _ ho

theorem residcalc_snd_getD (sqrtFn : ℚ → ℚ) (fd : FileData)
    (flux err : List (List ℚ)) (ntrim o : ℕ) (ho : o < flux.length - 1) :
    (residcalc sqrtFn fd flux err ntrim).2.getD o PyVal.nonfin
      = (residPair sqrtFn (fd.wavelength.getD o []) (flux.getD o []) (err.getD o [])
          (fd.wavelength.getD (o + 1) []) (flux.getD (o + 1) []) (err.getD (o + 1) [])
          ntrim).2 := by
  simp only [residcalc, List.map_map]
  exact getD_map_range _ o _ _ ho

/-- C5: the overlap index set of `residcalc` consists exactly of the indices
of order-`i` pixels whose wavelength is at most the last (for ascending
grids, maximum) wavelength of order `i + 1`, and the flux sums and
squared-error sums of the trim loop accumulate exactly the gathered overlap
values with the first `ntrim` and last `ntrim` entries of the overlap index
set excluded. -/
theorem residcalc_overlap_and_trim (w0 w1 f0 f1 e0 e1 : List ℚ) (ntrim : ℕ) :
    (∀ i, i ∈ overlapIdx w0 w1 ↔ i < w0.length ∧ w0.getD i 0 ≤ w1.getLastD 0)
    ∧ pairFluxsum0 w0 f0 w1 ntrim
        = (((gather f0 (overlapIdx w0 w1)).drop ntrim).take
            ((overlapIdx w0 w1).length - 2 * ntrim)).sum
    ∧ pairFluxsum1 w0 w1 f1 ntrim
        = (((resample w1 f1 w0 (overlapIdx w0 w1)).drop ntrim).take
            ((overlapIdx w0 w1).length - 2 * ntrim)).sum
    ∧ pairErrsum0 w0 e0 w1 ntrim
        = ((((gather e0 (overlapIdx w0 w1)).drop ntrim).take
            ((overlapIdx w0 w1).length - 2 * ntrim)).map (fun x => x ^ 2)).sum
    ∧ pairErrsum1 w0 w1 e1 ntrim
        = ((((resample w1 e1 w0 (overlapIdx w0 w1)).drop ntrim).take
            ((overlapIdx w0 w1).length - 2 * ntrim)).map (fun x => x ^ 2)).sum := by
  have heq : (overlapIdx w0 w1).length - ntrim - ntrim
      = (overlapIdx w0 w1).length - 2 * ntrim := by omega
  refine ⟨?_, ?_, ?_, ?_, ?_⟩
  · intro i
    simp [overlapIdx, List.mem_filter, List.mem_range]
  · unfold pairFluxsum0
    rw [loopSum_eq_trimmed_sum _ ntrim _ (by simp [gather]), heq]
  · unfold pairFluxsum1
    rw [loopSum_eq_trimmed_sum _ ntrim _ (by simp [resample]), heq]
  · unfold pairErrsum0
    rw [loopSumSq_eq_trimmed_sum _ ntrim _ (by simp [gather]), heq]
  · unfold pairErrsum1
    rw [loopSumSq_eq_trimmed_sum _ ntrim _ (by simp [resample]), heq]

/-- C4: for an adjacent order pair whose trim loop runs and whose trimmed
flux sums are both nonzero, `residcalc` returns exactly
`residual = 1 - fluxsum0 / fluxsum1` and
`residual error = |1 - residual| * sqrt(errsum0 / fluxsum0^2 +
errsum1 / fluxsum1^2)`, with `fluxsum0`/`errsum0` accumulated from order `i`
and `fluxsum1`/`errsum1` from the resampled order `i + 1`. -/
theorem residcalc_normal_case_formula (sqrtFn : ℚ → ℚ) (fd : FileData)
    (flux err : List (List ℚ)) (ntrim o : ℕ) (ho : o < flux.length - 1)
    (hbig : 2 * ntrim
      < (overlapIdx (fd.wavelength.getD o []) (fd.wavelength.getD (o + 1) [])).length)
    (hs0 : pairFluxsum0 (fd.wavelength.getD o []) (flux.getD o [])
        (fd.wavelength.getD (o + 1) []) ntrim ≠ 0)
    (hs1 : pairFluxsum1 (fd.wavelength.getD o []) (fd.wavelength.getD (o + 1) [])
        (flux.getD (o + 1) []) ntrim ≠ 0) :
    (residcalc sqrtFn fd flux err ntrim).1.getD o PyVal.nonfin
      = PyVal.fin (1 - pairFluxsum0 (fd.wavelength.getD o []) (flux.getD o [])
          (fd.wavelength.getD (o + 1) []) ntrim
            / pairFluxsum1 (fd.wavelength.getD o []) (fd.wavelength.getD (o + 1) [])
              (flux.getD (o + 1) []) ntrim)
    ∧ (residcalc sqrtFn fd flux err ntrim).2.getD o PyVal.nonfin
      = PyVal.fin (|1 - (1 - pairFluxsum0 (fd.wavelength.getD o []) (flux.getD o [])
            (fd.wavelength.getD (o + 1) []) ntrim
              / pairFluxsum1 (fd.wavelength.getD o []) (fd.wavelength.getD (o + 1) [])
                (flux.getD (o + 1) []) ntrim)|
          * sqrtFn (pairErrsum0 (fd.wavelength.getD o []) (err.getD o [])
              (fd.wavelength.getD (o + 1) []) ntrim
                / pairFluxsum0 (fd.wavelength.getD o []) (flux.getD o [])
                  (fd.wavelength.getD (o + 1) []) ntrim ^ 2
              + pairErrsum1 (fd.wavelength.getD o []) (fd.wavelength.getD (o + 1) [])
                  (err.getD (o + 1) []) ntrim
                / pairFluxsum1 (fd.wavelength.getD o []) (fd.wavelength.getD (o + 1) [])
                  (flux.getD (o + 1) []) ntrim ^ 2)) := by
  constructor
  · rw [residcalc_fst_getD sqrtFn fd flux err ntrim o ho]
    simp only [residPair]
    rw [if_neg (by omega)]
    rw [pyDiv_fin_fin _ _ hs1, pySub_fin_fin]
  · rw [residcalc_snd_getD sqrtFn fd flux err ntrim o ho]
    simp only [residPair]
    rw [if_neg (by omega)]
    rw [pyDiv_fin_fin _ _ hs1, pySub_fin_fin,
      pyDiv_fin_fin _ _ (pow_ne_zero 2 hs0), pyDiv_fin_fin _ _ (pow_ne_zero 2 hs1),
      pyAdd_fin_fin, pySqrt_fin, pySub_fin_fin, pyAbs_fin, pyMul_fin_fin]

/-- C9: for an adjacent order pair whose overlap index set has at most
`2 * ntrim` entries, the trim loop of `residcalc` never executes, the sums
remain the Python integer zeros of line 118, the division `0/0` raises
`ZeroDivisionError`, and the pair's result is forced to the fallback
`residual = 0`, `residual error = 1` — regardless of the flux and error
values in the overlap. -/
theorem residcalc_empty_trim_fallback (sqrtFn : ℚ → ℚ) (fd : FileData)
    (flux err : List (List ℚ)) (ntrim o : ℕ) (ho : o < flux.length - 1)
    (hsmall : (overlapIdx (fd.wavelength.getD o [])
        (fd.wavelength.getD (o + 1) [])).length ≤ 2 * ntrim) :
    (residcalc sqrtFn fd flux err ntrim).1.getD o PyVal.nonfin = PyVal.fin 0
    ∧ (residcalc sqrtFn fd flux err ntrim).2.getD o PyVal.nonfin = PyVal.fin 1 := by
  constructor
  · rw [residcalc_fst_getD sqrtFn fd flux err ntrim o ho]
    simp only [residPair]
    rw [if_pos hsmall]
  · rw [residcalc_snd_getD sqrtFn fd flux err ntrim o ho]
    simp only [residPair]
    rw [if_pos hsmall]

/-- C1 (behavior at the failing input): on a two-order exposure whose shared
overlap region holds only zeros, the trim loop of `residcalc` runs (12
overlap pixels against the default `ntrim = 5`), the sums become numpy float
zeros, `0.0/0.0` silently yields `nan` instead of raising
`ZeroDivisionError`, and both the residual and the residual error come out
non-finite — not the documented fallback `(0, 1)`. -/
theorem residcalc_allzero_overlap_nonfinite :
    residcalcD (fun q => q) fdAllZero 5 = ([PyVal.nonfin], [PyVal.nonfin]) := by
  with_unfolding_all decide

/-- C3 (intended behavior of the broken line): with the documented meaning of
source line 244 (`if not iterate:` — as written, `if !iterate:` is a Python
syntax error and the module cannot be imported at all), `findshift` called
with `iterate = false` holds both parameters fixed, so it returns parameter
values equal to the guess exactly — for any solver outcome — and a pixshift
vector equal to `a0 + b0 * k` exactly at every relative order index `k`. -/
theorem findshift_no_iterate_guess (solver : LmResult) (sqrtFn : ℚ → ℚ)
    (fd : FileData) (guess : ℚ × ℚ) :
    (findshift solver sqrtFn fd guess false).2.2.1.1 = guess.1
    ∧ (findshift solver sqrtFn fd guess false).2.2.2.1 = guess.2
    ∧ (findshift solver sqrtFn fd guess false).1
        = (List.range (numOrders fd)).map (fun k : ℕ => guess.1 + guess.2 * (k : ℚ)) :=
  ⟨rfl, rfl, rfl⟩

/-- C8: for every fit result, the pixel-shift uncertainty returned by
`findshift` satisfies
`pixerr[k] = sqrt(stderr(a)^2 + (k * stderr(b))^2)` at every relative order
index `k`, where `stderr(a)` and `stderr(b)` are the standard errors in the
returned parameter tuples — independent-error propagation through the linear
model, with no covariance cross-term. -/
theorem findshift_pixerr_formula (solver : LmResult) (sqrtFn : ℚ → ℚ)
    (fd : FileData) (guess : ℚ × ℚ) (iterate : Bool) (k : ℕ)
    (hk : k < numOrders fd) :
    (findshift solver sqrtFn fd guess iterate).2.1.getD k 0
      = sqrtFn ((findshift solver sqrtFn fd guess iterate).2.2.1.2 ^ 2
          + ((k : ℚ) * (findshift solver sqrtFn fd guess iterate).2.2.2.2) ^ 2) := by
  simp only [findshift]
  exact getD_map_range _ k _ 0 hk

/-- C10: in the per-file loop of `fluxfix`, after processing all table
extensions, only the last extension's corrected flux and error arrays are
written back into the record before the output file is saved: every earlier
extension is returned unchanged, and the last extension's `flux`/`error`
are replaced by `fluxcorrect` of that last extension. -/
theorem fluxfix_writes_back_only_last_extension (solver : LmResult)
    (sqrtFn : ℚ → ℚ) (guess : ℚ × ℚ) (file : List FileData) (hne : file ≠ []) :
    (fluxfixFile solver sqrtFn guess file).length = file.length
    ∧ (∀ k, k + 1 < file.length →
        (fluxfixFile solver sqrtFn guess file).getD k emptyFD = file.getD k emptyFD)
    ∧ (fluxfixFile solver sqrtFn guess file).getLastD emptyFD
        = setFluxErr (file.getLastD emptyFD)
            (fluxcorrect (file.getLastD emptyFD)
              (findshift solver sqrtFn (file.getLastD emptyFD) guess true).1).1
            (fluxcorrect (file.getLastD emptyFD)
              (findshift solver sqrtFn (file.getLastD emptyFD) guess true).1).2 := by
  rcases List.eq_nil_or_concat file with hnil | ⟨l, x, rfl⟩
  · exact absurd hnil hne
  · simp only [List.concat_eq_append]
    have hfix : fluxfixFile solver sqrtFn guess (l ++ [x])
        = l ++ [setFluxErr x
            (fluxcorrect x (findshift solver sqrtFn x guess true).1).1
            (fluxcorrect x (findshift solver sqrtFn x guess true).1).2] := by
      simp only [fluxfixFile, List.foldl_append, List.foldl_cons, List.foldl_nil]
      rw [List.dropLast_concat, List.getLast?_concat]
      simp [Option.elim]
    rw [hfix]
    refine ⟨by simp, ?_, ?_⟩
    · intro k hk
      have hkl : k < l.length := by
        simp at hk
        omega
      rw [List.getD_append _ _ _ _ hkl, List.getD_append _ _ _ _ hkl]
    · rw [List.getLastD_concat, List.getLastD_concat]

/-- C2 counterexample: on a one-order exposure with nonzero data but
`error * net ≠ net_error * flux`, a zero pixel shift reproduces the flux
array exactly, yet the returned error array (`net_error / (net/flux)`,
here `[[6, 6]]`) differs from the original error array `[[5, 5]]` — far
beyond floating-point tolerance. -/
theorem fluxcorrect_zero_shift_not_roundtrip :
    (fluxcorrect fdInconsistent (List.replicate 1 0)).1 = fdInconsistent.flux
    ∧ (fluxcorrect fdInconsistent (List.replicate 1 0)).2 ≠ fdInconsistent.error := by
  with_unfolding_all decide

/-- Concrete instance of the round-trip theorem on a calibration-consistent
exposure. -/
theorem fluxcorrect_zero_shift_roundtrip_witness :
    (fluxcorrect fdConsistent (List.replicate 1 0)).1 = fdConsistent.flux
    ∧ (fluxcorrect fdConsistent (List.replicate 1 0)).2 = fdConsistent.error :=
  fluxcorrect_zero_shift_roundtrip fdConsistent 1 2 (by decide)
    (by with_unfolding_all decide) (by with_unfolding_all decide)
    (by with_unfolding_all decide) (by with_unfolding_all decide)
    (by with_unfolding_all decide) (by with_unfolding_all decide)
    (by with_unfolding_all decide)

/-- Concrete instance of the extrapolation theorem: on the grid `[0, 2]`
with values `[1, 5]` the interpolant continues the segment of slope 2, so it
returns `-1` at `q = -1` and `7` at `q = 3`. -/
theorem interp1d_extrapolates_linearly_witness :
    interp1d [0, 2] [1, 5] (-1) = -1 ∧ interp1d [0, 2] [1, 5] 3 = 7 := by
  have hlo := (interp1d_extrapolates_linearly [0, 2] [1, 5] (-1) (by decide)
    (by with_unfolding_all decide)).1 (by with_unfolding_all decide)
  have hhi := (interp1d_extrapolates_linearly [0, 2] [1, 5] 3 (by decide)
    (by with_unfolding_all decide)).2 (by with_unfolding_all decide)
  exact ⟨hlo.trans (by with_unfolding_all decide),
    hhi.trans (by with_unfolding_all decide)⟩

/-- Concrete instance of the shape-preservation theorem. -/
theorem fluxcorrect_shape_preserving_witness :
    Rect ((fluxcorrect fdTiny [1/2, 1/2]).1) 2 2
    ∧ Rect ((fluxcorrect fdTiny [1/2, 1/2]).2) 2 2 :=
  fluxcorrect_shape_preserving fdTiny [1/2, 1/2] 2 2 (by with_unfolding_all decide)
    (by with_unfolding_all decide) (by with_unfolding_all decide)

/-- Concrete instance of the normal-case residual formula: with `ntrim = 0`
the sums over the shared two-pixel overlap are `fluxsum0 = 3`,
`fluxsum1 = 8`, `errsum0 = 2`, `errsum1 = 0`, giving residual `5/8` and
(with the identity standing in for the abstract square root) residual error
`(3/8) * (2/9) = 1/12`. -/
theorem residcalc_normal_case_formula_witness :
    (residcalc (fun q => q) fdSmall fdSmall.flux fdSmall.error 0).1.getD 0 PyVal.nonfin
        = PyVal.fin (5 / 8)
    ∧ (residcalc (fun q => q) fdSmall fdSmall.flux fdSmall.error 0).2.getD 0 PyVal.nonfin
        = PyVal.fin (1 / 12) := by
  have h := residcalc_normal_case_formula (fun q => q) fdSmall fdSmall.flux
    fdSmall.error 0 0 (by decide) (by with_unfolding_all decide)
    (by with_unfolding_all decide) (by with_unfolding_all decide)
  exact ⟨h.1.trans (by with_unfolding_all decide),
    h.2.trans (by with_unfolding_all decide)⟩

/-- Concrete instance of the degenerate-overlap fallback: a two-pixel
overlap against `ntrim = 5` leaves the loop unexecuted and forces `(0, 1)`
even though all flux values are nonzero. -/
theorem residcalc_empty_trim_fallback_witness :
    (residcalc (fun q => q) fdTiny fdTiny.flux fdTiny.error 5).1.getD 0 PyVal.nonfin
        = PyVal.fin 0
    ∧ (residcalc (fun q => q) fdTiny fdTiny.flux fdTiny.error 5).2.getD 0 PyVal.nonfin
        = PyVal.fin 1 :=
  residcalc_empty_trim_fallback (fun q => q) fdTiny fdTiny.flux fdTiny.error 5 0
    (by decide) (by with_unfolding_all decide)

/-- Concrete instance of the pixel-shift error formula: with standard errors
`stderr(a) = 1`, `stderr(b) = 2` the entry at order 2 is `1 + (2*2)^2 = 17`
(identity standing in for the abstract square root). -/
theorem findshift_pixerr_formula_witness :
    (findshift ⟨3, 1, 4, 2⟩ (fun q => q) fdThree (0, 0) true).2.1.getD 2 0 = 17 := by
  have h := findshift_pixerr_formula ⟨3, 1, 4, 2⟩ (fun q => q) fdThree (0, 0) true 2
    (by decide)
  exact h.trans (by with_unfolding_all decide)

/-- Concrete instance of the last-extension write-back: in a two-extension
file the first extension is returned untouched and the second gets the
corrected arrays computed from itself. -/
theorem fluxfix_writes_back_only_last_extension_witness :
    (fluxfixFile ⟨0, 0, 0, 0⟩ (fun q => q) (1, 1/2)
        [fdConsistent, fdInconsistent]).getD 0 emptyFD = fdConsistent
    ∧ (fluxfixFile ⟨0, 0, 0, 0⟩ (fun q => q) (1, 1/2)
        [fdConsistent, fdInconsistent]).getLastD emptyFD
      = setFluxErr fdInconsistent [[2, 2]] [[6, 6]] := by
  have h := fluxfix_writes_back_only_last_extension ⟨0, 0, 0, 0⟩ (fun q => q) (1, 1/2)
    [fdConsistent, fdInconsistent] (by decide)
  exact ⟨(h.2.1 0 (by decide)).trans (by with_unfolding_all decide),
    h.2.2.trans (by with_unfolding_all decide)⟩

end Stisblazefix
